import Mathlib

/-
Verification of `neural_network.py`: a shallow embedding of the three
graph-building functions `dense_relu`, `dense_relu_bn_drop` and `dense_nn`.

The TensorFlow computational graph is embedded as an inductive `Tensor` AST.
Python failures (IndexError on `layer_sizes[0]` for an empty list,
ZeroDivisionError in `sqrt(2.0/dim_in)` when the incoming dimension is 0,
a statically unknown second dimension in `get_shape().as_list()[1]`) are
modelled by `Option`.  Numerical evaluation of the metric subgraph on fed
values is modelled over exact rationals extended with IEEE-style
`inf`/`-inf`/`nan` special values (`FVal`); feeding a tensor corresponds to
TensorFlow's `feed_dict`, which may override any graph node.  Weight
initializers are kept symbolic: the source passes
`tf.truncated_normal_initializer(stddev=sqrt(2.0/dim_in), seed=seed)`, so an
initializer is recorded as the pair of the symbolic expression
`sqrt(2/dim_in)` and the seed.  Name scopes (`tf.name_scope`) are cosmetic
per the spec and are not recorded in the AST; the `name` arguments of the
builders are kept in the signatures.  `tf.summary.scalar` is logging only
and `tf.reset_default_graph` clears implicit global state that the pure
embedding does not have; neither affects the ops built.
-/

/-- Symbolic nonnegative real expression used as an initializer parameter;
the source computes `sqrt(2.0/dim_in)`. -/
inductive RealExpr
  | sqrt (q : ℚ)
deriving DecidableEq

/-- Descriptor of `tf.truncated_normal_initializer(stddev=..., seed=...)`.
The external framework draws the initial weights deterministically from
this descriptor. -/
structure TruncatedNormal where
  stddev : RealExpr
  seed : Int
deriving DecidableEq

/-- AST of the graph nodes built by `neural_network.py`.  `placeholder`
records the name and static shape (`none` entries are unknown dimensions,
such as the batch dimension); `affine` is the linear part of
`tf.layers.dense` together with its kernel initializer (the bias keeps the
framework default and is not recorded); `relu` is the activation applied by
`tf.layers.dense(activation=tf.nn.relu)`. -/
inductive Tensor
  | placeholder (name : String) (shape : List (Option Nat))
  | affine (input : Tensor) (units : Nat) (kernelInit : TruncatedNormal)
  | relu (t : Tensor)
  | batchNorm (t : Tensor) (center scale : Bool) (training : Tensor)
  | dropout (t : Tensor) (pkeep : Tensor)
  | sub (a b : Tensor)
  | abs (a : Tensor)
  | div (a b : Tensor)
  | square (a : Tensor)
  | greater (a : Tensor) (c : ℚ)
  | cast (a : Tensor)
  | reduceMean (a : Tensor)
deriving DecidableEq

/-- Static second dimension of a tensor, as read by
`inputs.get_shape().as_list()[1]`: `none` when the rank is below 2 or the
dimension is unknown (both raise in the Python source when used). -/
def Tensor.dim2 : Tensor → Option Nat
  | .placeholder _ shape => (shape.get? 1).bind id
  | .affine _ units _ => some units
  | .relu t => t.dim2
  | .batchNorm t _ _ _ => t.dim2
  | .dropout t _ => t.dim2
  | .sub a _ => a.dim2
  | .abs a => a.dim2
  | .div a _ => a.dim2
  | .square a => a.dim2
  | .greater a _ => a.dim2
  | .cast a => a.dim2
  | .reduceMean _ => none

/-- All kernel initializers occurring in the graph below a node. -/
def Tensor.collectInits : Tensor → List TruncatedNormal
  | .placeholder _ _ => []
  | .affine t _ i => i :: t.collectInits
  | .relu t => t.collectInits
  | .batchNorm t _ _ tr => t.collectInits ++ tr.collectInits
  | .dropout t p => t.collectInits ++ p.collectInits
  | .sub a b => a.collectInits ++ b.collectInits
  | .abs a => a.collectInits
  | .div a b => a.collectInits ++ b.collectInits
  | .square a => a.collectInits
  | .greater a _ => a.collectInits
  | .cast a => a.collectInits
  | .reduceMean a => a.collectInits

/-- `dense_relu(inputs, units, seed, name)`: fully-connected layer with ReLU
activations and He-style truncated-normal weight initialization,
`stddev = sqrt(2.0/dim_in)`.  Returns `none` when
`inputs.get_shape().as_list()[1]` is unavailable (Python raises) or when
`dim_in = 0` (`sqrt(2.0/dim_in)` raises ZeroDivisionError). -/
def dense_relu (inputs : Tensor) (units : Nat) (seed : Int) (name : String) :
    Option Tensor := do
  let dim_in ← inputs.dim2
  if dim_in = 0 then none
  else
    some (.relu (.affine inputs units ⟨.sqrt (2 / (dim_in : ℚ)), seed⟩))

/-- `dense_relu_bn_drop(inputs, units, seed, training_phase, pkeep, name)`:
dense layer with ReLU activations, then batch normalization (centered and
scaled, switched by `training_phase`), then dropout with keep probability
`pkeep`. -/
def dense_relu_bn_drop (inputs : Tensor) (units : Nat) (seed : Int)
    (training_phase pkeep : Tensor) (name : String) : Option Tensor := do
  let l1 ← dense_relu inputs units seed "dense_relu"
  let l2 := Tensor.batchNorm l1 true true training_phase
  some (.dropout l2 pkeep)

/-- The `for i in range(nb_hidden_layers - 1)` loop of `dense_nn`: each
iteration builds `dense_relu_bn_drop(layers[i], layer_sizes[i+1], ...)`,
i.e. consumes the previously appended layer.  `rest` is
`layer_sizes[1:]` and `idx` the running index used in the layer name. -/
def hiddenLayers (seed : Int) (training_phase pkeep : Tensor) :
    Tensor → List Nat → Nat → Option (List Tensor)
  | _, [], _ => some []
  | prev, units :: rest, idx => do
      let hidden ← dense_relu_bn_drop prev units seed training_phase pkeep
        ("dense_hidden_" ++ toString idx)
      let more ← hiddenLayers seed training_phase pkeep hidden rest (idx + 1)
      some (hidden :: more)

/-- The named tuple returned by `dense_nn`, field for field. -/
structure NeuralNetwork where
  inputs : Tensor
  labels : Tensor
  pkeep : Tensor
  training_phase : Tensor
  predictions : Tensor
  loss : Tensor
  err_2pc : Tensor
  err_1pc : Tensor
deriving DecidableEq

/-- `dense_nn(nb_features, layer_sizes, nb_labels, seed)`: assembles the
dense network.  `layer_sizes.get? 0` models the unconditional
`layer_sizes[0]` (IndexError on an empty list), `layers.getLast?` models
`layers[-1]`. -/
def dense_nn (nb_features : Nat) (layer_sizes : List Nat) (nb_labels : Nat)
    (seed : Int) : Option NeuralNetwork := do
  let inputs : Tensor := .placeholder "inputs" [none, some nb_features]
  let labels : Tensor := .placeholder "labels" [none, some nb_labels]
  let training_phase : Tensor := .placeholder "training_phase" []
  let pkeep : Tensor := .placeholder "pkeep" []
  let size0 ← layer_sizes.get? 0
  let first_layer ← dense_relu_bn_drop inputs size0 seed training_phase pkeep
    "dense_hidden_0"
  let rest_layers ← hiddenLayers seed training_phase pkeep first_layer
    (layer_sizes.drop 1) 1
  let layers := first_layer :: rest_layers
  let last_layer ← layers.getLast?
  let prediction_layer ← dense_relu last_layer nb_labels seed "predictions"
  let loss := Tensor.reduceMean (.square (.sub prediction_layer labels))
  let relative_error := Tensor.div (.abs (.sub prediction_layer labels)) labels
  let close_prediction_2pc := Tensor.greater relative_error (2/100)
  let err_2pc := Tensor.reduceMean (.cast close_prediction_2pc)
  let close_prediction_1pc := Tensor.greater relative_error (1/100)
  let err_1pc := Tensor.reduceMean (.cast close_prediction_1pc)
  some ⟨inputs, labels, pkeep, training_phase, prediction_layer, loss,
        err_2pc, err_1pc⟩

/-- Idealized floating-point value: exact rational, infinities, or NaN. -/
inductive FVal
  | fin (q : ℚ)
  | inf
  | ninf
  | nan
deriving DecidableEq

/-- IEEE-style negation. -/
def fneg : FVal → FVal
  | .fin a => .fin (-a)
  | .inf => .ninf
  | .ninf => .inf
  | .nan => .nan

/-- IEEE-style addition (exact on finite values). -/
def fadd : FVal → FVal → FVal
  | .nan, _ => .nan
  | _, .nan => .nan
  | .fin a, .fin b => .fin (a + b)
  | .inf, .ninf => .nan
  | .ninf, .inf => .nan
  | .inf, _ => .inf
  | _, .inf => .inf
  | .ninf, _ => .ninf
  | _, .ninf => .ninf

/-- IEEE-style subtraction. -/
def fsub (a b : FVal) : FVal := fadd a (fneg b)

/-- IEEE-style absolute value. -/
def fabs : FVal → FVal
  | .fin a => .fin |a|
  | .nan => .nan
  | .inf => .inf
  | .ninf => .inf

/-- IEEE-style division; a zero denominator yields `nan` for a zero
numerator and a signed infinity otherwise (only the positive zero is
modelled). -/
def fdiv : FVal → FVal → FVal
  | .nan, _ => .nan
  | _, .nan => .nan
  | .fin a, .fin b =>
      if b = 0 then (if a = 0 then .nan else if 0 < a then .inf else .ninf)
      else .fin (a / b)
  | .fin _, .inf => .fin 0
  | .fin _, .ninf => .fin 0
  | .inf, .fin b => if 0 ≤ b then .inf else .ninf
  | .ninf, .fin b => if 0 ≤ b then .ninf else .inf
  | .inf, _ => .nan
  | .ninf, _ => .nan

/-- IEEE-style multiplication. -/
def fmul : FVal → FVal → FVal
  | .nan, _ => .nan
  | _, .nan => .nan
  | .fin a, .fin b => .fin (a * b)
  | .inf, .fin b => if b = 0 then .nan else if 0 < b then .inf else .ninf
  | .ninf, .fin b => if b = 0 then .nan else if 0 < b then .ninf else .inf
  | .fin a, .inf => if a = 0 then .nan else if 0 < a then .inf else .ninf
  | .fin a, .ninf => if a = 0 then .nan else if 0 < a then .ninf else .inf
  | .inf, .inf => .inf
  | .inf, .ninf => .ninf
  | .ninf, .inf => .ninf
  | .ninf, .ninf => .inf

/-- `tf.nn.relu`, elementwise `max(x, 0)`; NaN propagates. -/
def frelu : FVal → FVal
  | .fin q => .fin (max q 0)
  | .inf => .inf
  | .ninf => .fin 0
  | .nan => .nan

/-- `tf.greater(v, c)` against a rational constant; any comparison with NaN
is false. -/
def fgt (v : FVal) (c : ℚ) : Bool :=
  match v with
  | .fin q => decide (c < q)
  | .inf => true
  | .ninf => false
  | .nan => false

/-- IEEE-style strict less-than on values; any comparison with NaN is
false. -/
def fltF : FVal → FVal → Bool
  | .nan, _ => false
  | _, .nan => false
  | .fin a, .fin b => decide (a < b)
  | .fin _, .inf => true
  | .fin _, .ninf => false
  | .inf, .fin _ => false
  | .inf, .inf => false
  | .inf, .ninf => false
  | .ninf, .ninf => false
  | .ninf, _ => true

/-- A runtime tensor element: a float value or a boolean (the output of
`tf.greater`). -/
inductive Cell
  | f (v : FVal)
  | b (x : Bool)
deriving DecidableEq

/-- A fed or computed tensor value: a matrix of cells (row-major). -/
abbrev Mat := List (List Cell)

/-- Elementwise subtraction on cells; booleans are not subtractable. -/
def cellSub : Cell → Cell → Option Cell
  | .f a, .f b => some (.f (fsub a b))
  | _, _ => none

/-- Elementwise division on cells. -/
def cellDiv : Cell → Cell → Option Cell
  | .f a, .f b => some (.f (fdiv a b))
  | _, _ => none

/-- Elementwise absolute value on cells. -/
def cellAbs : Cell → Option Cell
  | .f a => some (.f (fabs a))
  | .b _ => none

/-- Elementwise square on cells. -/
def cellSquare : Cell → Option Cell
  | .f a => some (.f (fmul a a))
  | .b _ => none

/-- Elementwise ReLU on cells. -/
def cellRelu : Cell → Option Cell
  | .f a => some (.f (frelu a))
  | .b _ => none

/-- Elementwise `tf.greater(·, c)` on cells: produces a boolean cell. -/
def cellGreater (c : ℚ) : Cell → Option Cell
  | .f v => some (.b (fgt v c))
  | .b _ => none

/-- Elementwise `tf.cast(·, tf.float32)`: a boolean becomes 1 or 0. -/
def cellCast : Cell → Option Cell
  | .b x => some (.f (.fin (if x then 1 else 0)))
  | .f v => some (.f v)

/-- Elementwise combination of two rows of equal length. -/
def zipCellsRow (op : Cell → Cell → Option Cell) :
    List Cell → List Cell → Option (List Cell)
  | [], [] => some []
  | a :: as, b :: bs => do
      let c ← op a b
      let cs ← zipCellsRow op as bs
      some (c :: cs)
  | _, _ => none

/-- Elementwise combination of two matrices of identical shape. -/
def binop (op : Cell → Cell → Option Cell) : Mat → Mat → Option Mat
  | [], [] => some []
  | r :: rs, s :: ss => do
      let t ← zipCellsRow op r s
      let ts ← binop op rs ss
      some (t :: ts)
  | _, _ => none

/-- Elementwise map of a row. -/
def unopRow (op : Cell → Option Cell) : List Cell → Option (List Cell)
  | [] => some []
  | a :: as => do
      let c ← op a
      let cs ← unopRow op as
      some (c :: cs)

/-- Elementwise map of a matrix. -/
def unop (op : Cell → Option Cell) : Mat → Option Mat
  | [] => some []
  | r :: rs => do
      let t ← unopRow op r
      let ts ← unop op rs
      some (t :: ts)

/-- Sum of the float cells of a list; fails on boolean cells. -/
def sumCells : List Cell → Option FVal
  | [] => some (.fin 0)
  | .f v :: rest => (sumCells rest).map (fun s => fadd v s)
  | .b _ :: _ => none

/-- `tf.reduce_mean`: sum of all elements divided by their count (a 1x1
result; the mean of an empty tensor is NaN, via 0/0). -/
def meanMat (M : Mat) : Option Mat :=
  (sumCells M.flatten).map
    (fun s => [[.f (fdiv s (.fin ((M.flatten.length : ℕ) : ℚ)))]])

/-- A `feed_dict`: concrete values for selected graph nodes. -/
def lookupFeed (feed : List (Tensor × Mat)) (t : Tensor) : Option Mat :=
  match feed with
  | [] => none
  | (s, M) :: rest => if s = t then some M else lookupFeed rest t

/-- Runs a node of the assembled graph on a feed, like `session.run` with a
`feed_dict`: a fed node takes its fed value (TensorFlow allows feeding any
node, which overrides its computation); placeholders, affine layers, batch
normalization and dropout are only available when fed (their run-time
behavior lives in the external framework); the arithmetic, comparison,
cast and mean nodes compute elementwise. -/
def Tensor.eval (feed : List (Tensor × Mat)) : Tensor → Option Mat
  | .placeholder nm sh => lookupFeed feed (.placeholder nm sh)
  | .affine t u i => lookupFeed feed (.affine t u i)
  | .batchNorm t c s tr => lookupFeed feed (.batchNorm t c s tr)
  | .dropout t p => lookupFeed feed (.dropout t p)
  | .relu t =>
      match lookupFeed feed (.relu t) with
      | some M => some M
      | none => (t.eval feed).bind (unop cellRelu)
  | .sub a b =>
      match lookupFeed feed (.sub a b) with
      | some M => some M
      | none => (a.eval feed).bind fun MA =>
          (b.eval feed).bind fun MB => binop cellSub MA MB
  | .abs a =>
      match lookupFeed feed (.abs a) with
      | some M => some M
      | none => (a.eval feed).bind (unop cellAbs)
  | .div a b =>
      match lookupFeed feed (.div a b) with
      | some M => some M
      | none => (a.eval feed).bind fun MA =>
          (b.eval feed).bind fun MB => binop cellDiv MA MB
  | .square a =>
      match lookupFeed feed (.square a) with
      | some M => some M
      | none => (a.eval feed).bind (unop cellSquare)
  | .greater a c =>
      match lookupFeed feed (.greater a c) with
      | some M => some M
      | none => (a.eval feed).bind (unop (cellGreater c))
  | .cast a =>
      match lookupFeed feed (.cast a) with
      | some M => some M
      | none => (a.eval feed).bind (unop cellCast)
  | .reduceMean a =>
      match lookupFeed feed (.reduceMean a) with
      | some M => some M
      | none => (a.eval feed).bind meanMat

/-- The cell at row `i`, column `j` of a matrix. -/
def getCell (M : Mat) (i j : ℕ) : Option Cell :=
  (M.get? i).bind fun r => r.get? j

/-- Whether a cell is a float cell. -/
def isF : Cell → Bool
  | .f _ => true
  | .b _ => false

/-- Whether a float cell exceeds the threshold `c`. -/
def hot (c : ℚ) : Cell → Bool
  | .f v => fgt v c
  | .b _ => false

/-- Whether a cell is a strictly negative value (NaN is not). -/
def Cell.strictNeg : Cell → Bool
  | .f (.fin q) => decide (q < 0)
  | .f .ninf => true
  | _ => false

/-- Strict comparison of two evaluated scalar metrics (1x1 matrices of
float cells); false unless both are such matrices. -/
def metricGt (M2 M1 : Mat) : Bool :=
  match M2, M1 with
  | [[Cell.f a]], [[Cell.f b]] => fltF b a
  | _, _ => false

/-- Whether an evaluated matrix contains a division-by-zero artifact
(infinity or NaN) among its float cells. -/
def hasArtifact (M : Mat) : Bool :=
  M.flatten.any fun cell =>
    decide (cell = .f .inf) || decide (cell = .f .ninf) ||
      decide (cell = .f .nan)

/-- The threshold test applied to one float cell (the action of
`tf.greater(·, c)` on a cell; boolean cells are unchanged junk, they never
occur on well-typed inputs). -/
def gcell (c : ℚ) : Cell → Cell
  | .f v => .b (fgt v c)
  | .b x => .b x

/-- The 0/1 indicator a cell contributes to an error metric: 1 when the
cell exceeds the threshold, 0 otherwise. -/
def icell (c : ℚ) (cell : Cell) : Cell :=
  .f (.fin (if hot c cell then 1 else 0))

/-- The `relative_error = tf.abs(prediction_layer - labels) / labels` node
built by `dense_nn`, as a function of the prediction and label nodes. -/
def relative_error_of (pred lab : Tensor) : Tensor :=
  .div (.abs (.sub pred lab)) lab

/-- The `close_prediction = tf.greater(relative_error, c)` node of
`dense_nn`. -/
def close_prediction_of (pred lab : Tensor) (c : ℚ) : Tensor :=
  .greater (relative_error_of pred lab) c

/-- The `err = tf.reduce_mean(tf.cast(close_prediction, tf.float32))` node
of `dense_nn`. -/
def err_metric_of (pred lab : Tensor) (c : ℚ) : Tensor :=
  .reduceMean (.cast (close_prediction_of pred lab c))

/-- Semantics of the relative-error subgraph on fed prediction and label
matrices. -/
def relSem (P L : Mat) : Option Mat :=
  (binop cellSub P L).bind fun S =>
    (unop cellAbs S).bind fun A => binop cellDiv A L

/-- Semantics of the threshold-test subgraph. -/
def closeSem (c : ℚ) (P L : Mat) : Option Mat :=
  (relSem P L).bind (unop (cellGreater c))

/-- Semantics of an error metric: mean of the boolean-to-float cast of the
threshold tests. -/
def errSem (c : ℚ) (P L : Mat) : Option Mat :=
  (closeSem c P L).bind fun G => (unop cellCast G).bind meanMat

/-- Synthetic 3-row prediction batch with relative errors of exactly
0.5%, 1.5% and 2.5% against `labelFeed3`. -/
def predFeed3 : Mat := [[.f (.fin 201)], [.f (.fin 203)], [.f (.fin 205)]]

/-- Synthetic 3-row label batch (all labels 200). -/
def labelFeed3 : Mat := [[.f (.fin 200)], [.f (.fin 200)], [.f (.fin 200)]]

/-- The input placeholder of the sample topology `dense_nn 1 [1] 1 0`. -/
def sampleInputs : Tensor := .placeholder "inputs" [none, some 1]

/-- The label placeholder of the sample topology. -/
def sampleLabels : Tensor := .placeholder "labels" [none, some 1]

/-- The training-phase placeholder of the sample topology. -/
def sampleTraining : Tensor := .placeholder "training_phase" []

/-- The keep-probability placeholder of the sample topology. -/
def samplePkeep : Tensor := .placeholder "pkeep" []

/-- The single regularized hidden layer of the sample topology. -/
def sampleHidden : Tensor :=
  .dropout (.batchNorm (.relu (.affine sampleInputs 1 ⟨.sqrt 2, 0⟩))
    true true sampleTraining) samplePkeep

/-- The affine part of the prediction head of the sample topology. -/
def sampleHead : Tensor := .affine sampleHidden 1 ⟨.sqrt 2, 0⟩

/-- The prediction node of the sample topology. -/
def samplePred : Tensor := .relu sampleHead

/-- The full bundle returned by `dense_nn 1 [1] 1 0`. -/
def sampleNN : NeuralNetwork :=
  ⟨sampleInputs, sampleLabels, samplePkeep, sampleTraining, samplePred,
   .reduceMean (.square (.sub samplePred sampleLabels)),
   err_metric_of samplePred sampleLabels (2/100),
   err_metric_of samplePred sampleLabels (1/100)⟩

/-- Inversion of `dense_relu`: success forces a known nonzero incoming
dimension and yields exactly a ReLU over an affine layer whose kernel
initializer is the He-style `sqrt(2/dim_in)` truncated normal with the
given seed. -/
lemma dense_relu_inv {inputs : Tensor} {units : Nat} {seed : Int}
    {name : String} {t : Tensor}
    (h : dense_relu inputs units seed name = some t) :
    ∃ d : Nat, inputs.dim2 = some d ∧ d ≠ 0 ∧
      t = .relu (.affine inputs units ⟨.sqrt (2 / (d : ℚ)), seed⟩) := by
  unfold dense_relu at h
  simp only [bind, Option.bind_eq_some] at h
  obtain ⟨d, hd, hf⟩ := h
  by_cases h0 : d = 0
  · rw [if_pos h0] at hf; exact absurd hf (by simp)
  · rw [if_neg h0] at hf
    exact ⟨d, hd, h0, (Option.some_inj.mp hf).symm⟩

/-- Inversion of `dense_relu_bn_drop`: success yields exactly
dropout over batch normalization over the ReLU dense layer. -/
lemma dense_relu_bn_drop_inv {inputs : Tensor} {units : Nat} {seed : Int}
    {tp pk : Tensor} {name : String} {t : Tensor}
    (h : dense_relu_bn_drop inputs units seed tp pk name = some t) :
    ∃ d : Nat, inputs.dim2 = some d ∧ d ≠ 0 ∧
      t = .dropout (.batchNorm
            (.relu (.affine inputs units ⟨.sqrt (2 / (d : ℚ)), seed⟩))
            true true tp) pk := by
  unfold dense_relu_bn_drop at h
  simp only [bind, Option.bind_eq_some] at h
  obtain ⟨l1, h1, hf⟩ := h
  obtain ⟨d, hd, h0, hl1⟩ := dense_relu_inv h1
  exact ⟨d, hd, h0, by rw [← Option.some_inj.mp hf, hl1]⟩

/-- Inversion of the hidden-layer loop: the last element of
`prev :: L` exists, and every initializer below it either comes from
`prev`, the training flag, the keep probability, or carries the loop's
seed. -/
lemma hiddenLayers_inv {seed : Int} {tp pk : Tensor} :
    ∀ {rest : List Nat} {prev : Tensor} {idx : Nat} {L : List Tensor},
      hiddenLayers seed tp pk prev rest idx = some L →
      ∃ last, (prev :: L).getLast? = some last ∧
        (∀ i ∈ last.collectInits,
          i ∈ prev.collectInits ∨ i ∈ tp.collectInits ∨
            i ∈ pk.collectInits ∨ i.seed = seed) := by
  intro rest
  induction rest with
  | nil =>
    intro prev idx L h
    simp only [hiddenLayers, Option.some_inj] at h
    subst h
    exact ⟨prev, rfl, fun i hi => Or.inl hi⟩
  | cons u rest ih =>
    intro prev idx L h
    simp only [hiddenLayers, bind, Option.bind_eq_some] at h
    obtain ⟨hidden, hh, more, hm, hL⟩ := h
    obtain rfl : L = hidden :: more := (Option.some_inj.mp hL).symm
    obtain ⟨d, hd, h0, hhid⟩ := dense_relu_bn_drop_inv hh
    obtain ⟨last, hlast, hin⟩ := ih hm
    refine ⟨last, ?_, ?_⟩
    · rw [List.getLast?_cons_cons]
      exact hlast
    · intro i hi
      rcases hin i hi with h1 | h2 | h3 | h4
      · rw [hhid] at h1
        simp only [Tensor.collectInits, List.mem_append, List.mem_cons] at h1
        rcases h1 with ((hx | hx) | hx) | hx
        · exact Or.inr (Or.inr (Or.inr (by rw [hx])))
        · exact Or.inl hx
        · exact Or.inr (Or.inl hx)
        · exact Or.inr (Or.inr (Or.inl hx))
      · exact Or.inr (Or.inl h2)
      · exact Or.inr (Or.inr (Or.inl h3))
      · exact Or.inr (Or.inr (Or.inr h4))

/-- Inversion of `dense_nn`: a successful assembly pins down the four
placeholders, the shape of the prediction head (a ReLU dense layer with
He-style initializer over the last hidden layer), the loss, both error
metric nodes, and the fact that every kernel initializer in the prediction
graph carries the topology's seed. -/
lemma dense_nn_spec {nf : Nat} {ls : List Nat} {nl : Nat} {seed : Int}
    {nn : NeuralNetwork} (h : dense_nn nf ls nl seed = some nn) :
    nn.inputs = .placeholder "inputs" [none, some nf] ∧
    nn.labels = .placeholder "labels" [none, some nl] ∧
    nn.pkeep = .placeholder "pkeep" [] ∧
    nn.training_phase = .placeholder "training_phase" [] ∧
    (∃ (last : Tensor) (d : Nat), last.dim2 = some d ∧ d ≠ 0 ∧
      nn.predictions = .relu (.affine last nl ⟨.sqrt (2 / (d : ℚ)), seed⟩)) ∧
    nn.loss = .reduceMean (.square (.sub nn.predictions nn.labels)) ∧
    nn.err_2pc = err_metric_of nn.predictions nn.labels (2/100) ∧
    nn.err_1pc = err_metric_of nn.predictions nn.labels (1/100) ∧
    (∀ i ∈ nn.predictions.collectInits, i.seed = seed) := by
  cases ls with
  | nil => simp [dense_nn] at h
  | cons l0 rest =>
    unfold dense_nn at h
    simp only [bind, Option.bind_eq_some, List.get?, List.drop,
      Option.some_inj] at h
    obtain ⟨s0, hs0, first, hfirst, restL, hrest, last, hlast, pred, hpred,
      hnn⟩ := h
    obtain rfl : s0 = l0 := hs0.symm
    obtain ⟨lastI, hlastI, hinits⟩ := hiddenLayers_inv hrest
    rw [hlastI] at hlast
    obtain rfl : lastI = last := Option.some_inj.mp hlast
    obtain ⟨d, hd, h0, hpredEq⟩ := dense_relu_inv hpred
    obtain ⟨d0, hd0, h00, hfirstEq⟩ := dense_relu_bn_drop_inv hfirst
    subst hnn
    refine ⟨rfl, rfl, rfl, rfl, ⟨lastI, d, hd, h0, hpredEq⟩, rfl, rfl, rfl, ?_⟩
    intro i hi
    rw [hpredEq] at hi
    simp only [Tensor.collectInits, List.mem_cons] at hi
    rcases hi with hi | hi
    · rw [hi]
    · rcases hinits i hi with hx | hx | hx | hx
      · rw [hfirstEq] at hx
        simp only [Tensor.collectInits, List.mem_append, List.mem_cons,
          List.not_mem_nil, or_false, false_or] at hx
        rw [hx]
      · exact absurd hx (List.not_mem_nil i)
      · exact absurd hx (List.not_mem_nil i)
      · exact hx

/-- Looking up the first entry of a feed. -/
lemma lookupFeed_head (t : Tensor) (M : Mat) (rest : List (Tensor × Mat)) :
    lookupFeed ((t, M) :: rest) t = some M := by
  simp [lookupFeed]

/-- Looking past a non-matching entry of a feed. -/
lemma lookupFeed_ne {s t : Tensor} (M : Mat) (rest : List (Tensor × Mat))
    (h : s ≠ t) : lookupFeed ((s, M) :: rest) t = lookupFeed rest t := by
  simp [lookupFeed, h]

/-- Evaluating the `relative_error` node on fed prediction and label values
yields its elementwise semantics.  The prediction node is a ReLU (as built
by `dense_nn`) and the label node a placeholder, so neither collides with
the arithmetic nodes in the feed lookup. -/
lemma eval_rel_feed (u : Tensor) (nm : String) (sh : List (Option Nat))
    (P L : Mat) :
    (relative_error_of (.relu u) (.placeholder nm sh)).eval
      [(.relu u, P), (.placeholder nm sh, L)] = relSem P L := by
  simp [relative_error_of, relSem, Tensor.eval, lookupFeed, Option.bind_assoc]

/-- Evaluating a `close_prediction` (threshold test) node on fed values. -/
lemma eval_close_feed (u : Tensor) (nm : String) (sh : List (Option Nat))
    (P L : Mat) (c : ℚ) :
    (close_prediction_of (.relu u) (.placeholder nm sh) c).eval
      [(.relu u, P), (.placeholder nm sh, L)] = closeSem c P L := by
  rw [close_prediction_of, closeSem, ← eval_rel_feed u nm sh P L]
  simp [Tensor.eval, lookupFeed, Option.bind_assoc]

/-- Evaluating an error-metric node on fed values. -/
lemma eval_err_feed (u : Tensor) (nm : String) (sh : List (Option Nat))
    (P L : Mat) (c : ℚ) :
    (err_metric_of (.relu u) (.placeholder nm sh) c).eval
      [(.relu u, P), (.placeholder nm sh, L)] = errSem c P L := by
  rw [err_metric_of, errSem, ← eval_close_feed u nm sh P L c]
  simp [Tensor.eval, lookupFeed, Option.bind_assoc, close_prediction_of,
    relative_error_of]

/-- Elementwise inversion of a zipped row, keyed on the right operand's
cell: the left cell and the result cell at the same position exist and are
related by the operation. -/
lemma zipCellsRow_get {op : Cell → Cell → Option Cell} :
    ∀ {r s t : List Cell}, zipCellsRow op r s = some t →
      ∀ {j : ℕ} {b : Cell}, s.get? j = some b →
        ∃ a cc, r.get? j = some a ∧ op a b = some cc ∧ t.get? j = some cc := by
  intro r
  induction r with
  | nil =>
    intro s t h j b hb
    cases s with
    | nil => simp at hb
    | cons b0 bs => simp [zipCellsRow] at h
  | cons a0 as ih =>
    intro s t h j b hb
    cases s with
    | nil => simp [zipCellsRow] at h
    | cons b0 bs =>
      simp only [zipCellsRow, bind, Option.bind_eq_some] at h
      obtain ⟨c0, hc0, cs, hcs, ht⟩ := h
      obtain rfl : t = c0 :: cs := (Option.some_inj.mp ht).symm
      cases j with
      | zero =>
        obtain rfl : b0 = b := by simpa using hb
        exact ⟨a0, c0, rfl, hc0, rfl⟩
      | succ j =>
        obtain ⟨a, cc, ha, hop, hc⟩ := ih hcs (by simpa using hb)
        exact ⟨a, cc, by simpa using ha, hop, by simpa using hc⟩

/-- Elementwise inversion of `binop`, keyed on the right matrix's cell. -/
lemma binop_get {op : Cell → Cell → Option Cell} :
    ∀ {P L M : Mat}, binop op P L = some M →
      ∀ {i j : ℕ} {b : Cell}, getCell L i j = some b →
        ∃ a cc, getCell P i j = some a ∧ op a b = some cc ∧
          getCell M i j = some cc := by
  intro P
  induction P with
  | nil =>
    intro L M h i j b hb
    cases L with
    | nil => simp [binop] at h; subst h; simp [getCell] at hb
    | cons s ss => simp [binop] at h
  | cons r rs ih =>
    intro L M h i j b hb
    cases L with
    | nil => simp [binop] at h
    | cons s ss =>
      simp only [binop, bind, Option.bind_eq_some] at h
      obtain ⟨t, ht, ts, hts, hM⟩ := h
      obtain rfl : M = t :: ts := (Option.some_inj.mp hM).symm
      cases i with
      | zero =>
        simp only [getCell, List.get?] at hb ⊢
        simp only [Option.some_bind] at hb ⊢
        obtain ⟨a, cc, ha, hop, hc⟩ := zipCellsRow_get ht hb
        exact ⟨a, cc, ha, hop, hc⟩
      | succ i =>
        simp only [getCell, List.get?] at hb ⊢
        exact ih hts hb

/-- Elementwise inversion of a mapped row. -/
lemma unopRow_get {op : Cell → Option Cell} :
    ∀ {r t : List Cell}, unopRow op r = some t →
      ∀ {j : ℕ} {a : Cell}, r.get? j = some a →
        ∃ cc, op a = some cc ∧ t.get? j = some cc := by
  intro r
  induction r with
  | nil => intro t h j a ha; simp at ha
  | cons a0 as ih =>
    intro t h j a ha
    simp only [unopRow, bind, Option.bind_eq_some] at h
    obtain ⟨c0, hc0, cs, hcs, ht⟩ := h
    obtain rfl : t = c0 :: cs := (Option.some_inj.mp ht).symm
    cases j with
    | zero =>
      obtain rfl : a0 = a := by simpa using ha
      exact ⟨c0, hc0, rfl⟩
    | succ j =>
      obtain ⟨cc, hop, hc⟩ := ih hcs (by simpa using ha)
      exact ⟨cc, hop, by simpa using hc⟩

/-- Elementwise inversion of `unop`. -/
lemma unop_get {op : Cell → Option Cell} :
    ∀ {R G : Mat}, unop op R = some G →
      ∀ {i j : ℕ} {a : Cell}, getCell R i j = some a →
        ∃ cc, op a = some cc ∧ getCell G i j = some cc := by
  intro R
  induction R with
  | nil => intro G h i j a ha; simp [unop] at h; subst h; simp [getCell] at ha
  | cons r rs ih =>
    intro G h i j a ha
    simp only [unop, bind, Option.bind_eq_some] at h
    obtain ⟨t, ht, ts, hts, hG⟩ := h
    obtain rfl : G = t :: ts := (Option.some_inj.mp hG).symm
    cases i with
    | zero =>
      simp only [getCell, List.get?, Option.some_bind] at ha ⊢
      exact unopRow_get ht ha
    | succ i =>
      simp only [getCell, List.get?] at ha ⊢
      exact ih hts ha

/-- Every cell of a `binop` result is an output of the operation. -/
lemma binop_out {op : Cell → Cell → Option Cell} :
    ∀ {P L M : Mat}, binop op P L = some M →
      ∀ cell ∈ M.flatten, ∃ a b, op a b = some cell := by
  intro P
  induction P with
  | nil =>
    intro L M h cell hc
    cases L with
    | nil => simp [binop] at h; subst h; simp at hc
    | cons s ss => simp [binop] at h
  | cons r rs ih =>
    intro L M h cell hc
    cases L with
    | nil => simp [binop] at h
    | cons s ss =>
      simp only [binop, bind, Option.bind_eq_some] at h
      obtain ⟨t, ht, ts, hts, hM⟩ := h
      obtain rfl : M = t :: ts := (Option.some_inj.mp hM).symm
      simp only [List.flatten_cons, List.mem_append] at hc
      rcases hc with hc | hc
      · clear ih hts
        induction t generalizing r s with
        | nil => simp at hc
        | cons c0 cs iht =>
          cases r with
          | nil => cases s <;> simp [zipCellsRow] at ht
          | cons a0 as =>
            cases s with
            | nil => simp [zipCellsRow] at ht
            | cons b0 bs =>
              simp only [zipCellsRow, bind, Option.bind_eq_some] at ht
              obtain ⟨c0x, hc0, csx, hcs, htx⟩ := ht
              injection htx with hx
              injection hx with h1 h2
              subst h1; subst h2
              rcases List.mem_cons.mp hc with rfl | hc
              · exact ⟨a0, b0, hc0⟩
              · exact iht as bs hcs rfl hc
      · exact ih hts cell hc

/-- Every cell of an `unop` result is an output of the operation. -/
lemma unop_out {op : Cell → Option Cell} :
    ∀ {R G : Mat}, unop op R = some G →
      ∀ cell ∈ G.flatten, ∃ a, op a = some cell := by
  intro R
  induction R with
  | nil => intro G h cell hc; simp [unop] at h; subst h; simp at hc
  | cons r rs ih =>
    intro G h cell hc
    simp only [unop, bind, Option.bind_eq_some] at h
    obtain ⟨t, ht, ts, hts, hG⟩ := h
    obtain rfl : G = t :: ts := (Option.some_inj.mp hG).symm
    simp only [List.flatten_cons, List.mem_append] at hc
    rcases hc with hc | hc
    · clear ih hts
      induction t generalizing r with
      | nil => simp at hc
      | cons c0 cs iht =>
        cases r with
        | nil => simp [unopRow] at ht
        | cons a0 as =>
          simp only [unopRow, bind, Option.bind_eq_some] at ht
          obtain ⟨c0x, hc0, csx, hcs, htx⟩ := ht
          injection htx with hx
          injection hx with h1 h2
          subst h1; subst h2
          rcases List.mem_cons.mp hc with rfl | hc
          · exact ⟨a0, hc0⟩
          · exact iht as hcs rfl hc
    · exact ih hts cell hc

/-- Every cell produced by the relative-error subgraph is a float cell
(`cellDiv` only emits float cells). -/
lemma relSem_allF {P L R : Mat} (h : relSem P L = some R) :
    ∀ cell ∈ R.flatten, isF cell = true := by
  unfold relSem at h
  simp only [Option.bind_eq_some] at h
  obtain ⟨S, hS, A, hA, hR⟩ := h
  intro cell hc
  obtain ⟨a, b, hab⟩ := binop_out hR cell hc
  cases a <;> cases b <;> simp [cellDiv] at hab
  rw [← hab]
  simp [isF]

/-- Applying the threshold test to a row of float cells. -/
lemma unopRow_greater {c : ℚ} :
    ∀ {r : List Cell}, (∀ cell ∈ r, isF cell = true) →
      unopRow (cellGreater c) r = some (r.map (gcell c)) := by
  intro r
  induction r with
  | nil => intro _; simp [unopRow]
  | cons a as ih =>
    intro h
    have ha : isF a = true := h a (List.mem_cons_self a as)
    cases a with
    | b x => simp [isF] at ha
    | f v =>
      simp only [unopRow, cellGreater, List.map_cons, gcell, bind,
        Option.some_bind]
      rw [ih (fun cell hc => h cell (List.mem_cons_of_mem _ hc))]
      rfl

/-- Applying the boolean-to-float cast after the threshold test on a row of
float cells yields the 0/1 indicator row. -/
lemma unopRow_cast {c : ℚ} :
    ∀ {r : List Cell}, (∀ cell ∈ r, isF cell = true) →
      unopRow cellCast (r.map (gcell c)) = some (r.map (icell c)) := by
  intro r
  induction r with
  | nil => intro _; simp [unopRow]
  | cons a as ih =>
    intro h
    have ha : isF a = true := h a (List.mem_cons_self a as)
    cases a with
    | b x => simp [isF] at ha
    | f v =>
      simp only [List.map_cons, gcell, unopRow, cellCast, icell, hot, bind,
        Option.some_bind]
      rw [ih (fun cell hc => h cell (List.mem_cons_of_mem _ hc))]
      rfl

/-- Matrix version of `unopRow_greater`. -/
lemma unop_greater {c : ℚ} :
    ∀ {R : Mat}, (∀ cell ∈ R.flatten, isF cell = true) →
      unop (cellGreater c) R = some (R.map (List.map (gcell c))) := by
  intro R
  induction R with
  | nil => intro _; simp [unop]
  | cons r rs ih =>
    intro h
    simp only [List.flatten_cons, List.mem_append] at h
    simp only [unop, List.map_cons, bind]
    rw [unopRow_greater (fun cell hc => h cell (Or.inl hc))]
    simp only [Option.some_bind]
    rw [ih (fun cell hc => h cell (Or.inr hc))]
    rfl

/-- Matrix version of `unopRow_cast`. -/
lemma unop_cast {c : ℚ} :
    ∀ {R : Mat}, (∀ cell ∈ R.flatten, isF cell = true) →
      unop cellCast (R.map (List.map (gcell c))) = some (R.map (List.map (icell c))) := by
  intro R
  induction R with
  | nil => intro _; simp [unop]
  | cons r rs ih =>
    intro h
    simp only [List.flatten_cons, List.mem_append] at h
    simp only [unop, List.map_cons, bind]
    rw [unopRow_cast (fun cell hc => h cell (Or.inl hc))]
    simp only [Option.some_bind]
    rw [ih (fun cell hc => h cell (Or.inr hc))]
    rfl

/-- Summing an indicator row counts the cells exceeding the threshold. -/
lemma sumCells_icell (c : ℚ) :
    ∀ l : List Cell,
      sumCells (l.map (icell c)) = some (.fin ((l.countP (hot c) : ℕ) : ℚ)) := by
  intro l
  induction l with
  | nil => simp [sumCells]
  | cons a as ih =>
    simp only [List.map_cons, icell, sumCells, ih, Option.map_some,
      List.countP_cons, fadd]
    by_cases h : hot c a
    · simp [h]
      ring
    · simp [h]

/-- The mean of the cast threshold tests equals the exceed count divided by
the element count. -/
lemma meanMat_icell (c : ℚ) (R : Mat) :
    meanMat (R.map (List.map (icell c))) =
      some [[.f (fdiv (.fin ((R.flatten.countP (hot c) : ℕ) : ℚ))
                      (.fin ((R.flatten.length : ℕ) : ℚ)))]] := by
  unfold meanMat
  rw [← List.map_flatten, sumCells_icell]
  simp only [List.length_map]
  rfl

/-- End-to-end characterization of an error metric on fed values: given the
relative-error matrix `R`, the metric is the fraction of cells of `R`
exceeding the threshold. -/
lemma errSem_spec {P L R : Mat} (c : ℚ) (h : relSem P L = some R) :
    errSem c P L =
      some [[.f (fdiv (.fin ((R.flatten.countP (hot c) : ℕ) : ℚ))
                      (.fin ((R.flatten.length : ℕ) : ℚ)))]] := by
  have hF := relSem_allF h
  unfold errSem closeSem
  rw [h]
  simp only [Option.some_bind]
  rw [unop_greater hF]
  simp only [Option.some_bind]
  rw [unop_cast hF]
  simp only [Option.some_bind]
  exact meanMat_icell c R

/-- A cell exceeding a larger threshold exceeds a smaller one. -/
lemma hot_mono {c1 c2 : ℚ} (h : c1 ≤ c2) :
    ∀ cell, hot c2 cell = true → hot c1 cell = true := by
  intro cell hc
  cases cell with
  | b x => simp [hot] at hc
  | f v =>
    cases v with
    | fin q =>
      simp only [hot, fgt, decide_eq_true_eq] at hc ⊢
      exact lt_of_le_of_lt h hc
    | inf => simp [hot, fgt]
    | ninf => simp [hot, fgt] at hc
    | nan => simp [hot, fgt] at hc

/-- A successful error metric evaluation passes through a successful
relative-error evaluation. -/
lemma errSem_relSem {c : ℚ} {P L M : Mat} (h : errSem c P L = some M) :
    ∃ R, relSem P L = some R := by
  unfold errSem closeSem at h
  simp only [Option.bind_eq_some] at h
  obtain ⟨G, ⟨R, hR, hG⟩, C, hC, hM⟩ := h
  exact ⟨R, hR⟩

/-- Core monotonicity: on any fed batch on which both metrics evaluate, the
2%-threshold error rate never strictly exceeds the 1%-threshold error
rate. -/
lemma err_metrics_no_gt {P L M2 M1 : Mat}
    (h2 : errSem (2/100) P L = some M2) (h1 : errSem (1/100) P L = some M1) :
    metricGt M2 M1 = false := by
  obtain ⟨R, hR⟩ := errSem_relSem h2
  rw [errSem_spec _ hR] at h2 h1
  obtain rfl := (Option.some_inj.mp h2).symm
  obtain rfl := (Option.some_inj.mp h1).symm
  by_cases hn : R.flatten.length = 0
  · obtain hnil := List.length_eq_zero.mp hn
    rw [hnil]
    simp [metricGt, fdiv, fltF]
  · have hk : R.flatten.countP (hot (2/100)) ≤ R.flatten.countP (hot (1/100)) :=
      List.countP_mono_left (fun a _ => hot_mono (by norm_num) a)
    have hn0 : ((R.flatten.length : ℕ) : ℚ) ≠ 0 := Nat.cast_ne_zero.mpr hn
    have hnpos : (0 : ℚ) < ((R.flatten.length : ℕ) : ℚ) := by
      have := Nat.pos_of_ne_zero hn
      exact_mod_cast this
    simp only [metricGt, fdiv, hn0, if_false, fltF, decide_eq_false_iff_not,
      not_lt]
    gcongr

/-- The relative-error matrix, elementwise: at any position holding float
cells in both feeds, it holds `|p - l| / l`. -/
lemma relSem_cell {P L R : Mat} (h : relSem P L = some R) {i j : ℕ}
    {pv lv : FVal} (hP : getCell P i j = some (.f pv))
    (hL : getCell L i j = some (.f lv)) :
    getCell R i j = some (.f (fdiv (fabs (fsub pv lv)) lv)) := by
  unfold relSem at h
  simp only [Option.bind_eq_some] at h
  obtain ⟨S, hS, A, hA, hR⟩ := h
  obtain ⟨a, cc, ha, hop, hcS⟩ := binop_get hS hL
  rw [hP] at ha
  obtain rfl : a = .f pv := (Option.some_inj.mp ha).symm
  simp only [cellSub, Option.some_inj] at hop
  obtain rfl : cc = .f (fsub pv lv) := hop.symm
  obtain ⟨cc2, hop2, hcA⟩ := unop_get hA hcS
  simp only [cellAbs, Option.some_inj] at hop2
  obtain rfl : cc2 = .f (fabs (fsub pv lv)) := hop2.symm
  obtain ⟨a3, cc3, ha3, hop3, hcR⟩ := binop_get hR hL
  rw [hcA] at ha3
  obtain rfl : a3 = .f (fabs (fsub pv lv)) := (Option.some_inj.mp ha3).symm
  simp only [cellDiv, Option.some_inj] at hop3
  obtain rfl : cc3 = .f (fdiv (fabs (fsub pv lv)) lv) := hop3.symm
  exact hcR

/-- At a position whose label cell is a float, the prediction cell is a
float too (otherwise the elementwise subtraction would have failed). -/
lemma relSem_pred_cell {P L R : Mat} (h : relSem P L = some R) {i j : ℕ}
    {lv : FVal} (hL : getCell L i j = some (.f lv)) :
    ∃ pv, getCell P i j = some (.f pv) := by
  unfold relSem at h
  simp only [Option.bind_eq_some] at h
  obtain ⟨S, hS, A, hA, hR⟩ := h
  obtain ⟨a, cc, ha, hop, hcS⟩ := binop_get hS hL
  cases a with
  | f pv => exact ⟨pv, ha⟩
  | b x => simp [cellSub] at hop

/-- Dividing the absolute difference by a zero label always produces an
IEEE artifact: positive infinity or NaN. -/
lemma rel_zero_artifact (pv : FVal) :
    fdiv (fabs (fsub pv (.fin 0))) (.fin 0) = .inf ∨
      fdiv (fabs (fsub pv (.fin 0))) (.fin 0) = .nan := by
  cases pv with
  | fin q =>
    by_cases hq : q = 0
    · subst hq; right; simp [fsub, fadd, fneg, fabs, fdiv]
    · left
      simp only [fsub, fadd, fneg, neg_zero, add_zero, fabs, fdiv]
      simp [abs_eq_zero, abs_pos, hq]
  | inf => left; simp [fsub, fadd, fneg, fabs, fdiv]
  | ninf => left; simp [fsub, fadd, fneg, fabs, fdiv]
  | nan => right; simp [fsub, fadd, fneg, fabs, fdiv]

/-- A strictly negative label makes the relative error a nonpositive
rational, so it fails every positive threshold test. -/
lemma rel_neg_label_not_hot {p q c : ℚ} (hq : q < 0) (hc : 0 < c) :
    fgt (fdiv (fabs (fsub (.fin p) (.fin q))) (.fin q)) c = false := by
  have hq0 : q ≠ 0 := ne_of_lt hq
  simp only [fsub, fadd, fneg, fabs, fdiv, hq0, if_false]
  simp only [fgt, decide_eq_false_iff_not, not_lt]
  have hdiv : |p + -q| / q ≤ 0 :=
    div_nonpos_of_nonneg_of_nonpos (abs_nonneg _) (le_of_lt hq)
  exact le_trans hdiv (le_of_lt hc)

/-- A cell retrieved by position is a member of the flattened matrix. -/
lemma getCell_mem {M : Mat} {i j : ℕ} {cell : Cell}
    (h : getCell M i j = some cell) : cell ∈ M.flatten := by
  unfold getCell at h
  simp only [Option.bind_eq_some] at h
  obtain ⟨row, hrow, hcell⟩ := h
  exact List.mem_flatten.mpr ⟨row, List.get?_mem hrow, List.get?_mem hcell⟩

/-- Closed form of `dense_relu` on an input with known nonzero second
dimension. -/
lemma dense_relu_eq {inputs : Tensor} {units : Nat} {seed : Int}
    {name : String} {d : Nat} (hd : inputs.dim2 = some d) (h0 : d ≠ 0) :
    dense_relu inputs units seed name =
      some (.relu (.affine inputs units ⟨.sqrt (2 / (d : ℚ)), seed⟩)) := by
  unfold dense_relu
  rw [hd]
  simp [h0]

/-- Closed form of `dense_relu_bn_drop` on an input with known nonzero
second dimension. -/
lemma dense_relu_bn_drop_eq {inputs : Tensor} {units : Nat} {seed : Int}
    {tp pk : Tensor} {name : String} {d : Nat}
    (hd : inputs.dim2 = some d) (h0 : d ≠ 0) :
    dense_relu_bn_drop inputs units seed tp pk name =
      some (.dropout (.batchNorm
        (.relu (.affine inputs units ⟨.sqrt (2 / (d : ℚ)), seed⟩))
        true true tp) pk) := by
  unfold dense_relu_bn_drop
  rw [dense_relu_eq hd h0]
  rfl

/-- The threshold-test matrix, elementwise: at any position holding float
cells in both feeds, it holds the boolean test of the relative error. -/
lemma closeSem_cell {c : ℚ} {P L G : Mat} (h : closeSem c P L = some G)
    {i j : ℕ} {pv lv : FVal} (hP : getCell P i j = some (.f pv))
    (hL : getCell L i j = some (.f lv)) :
    getCell G i j = some (.b (fgt (fdiv (fabs (fsub pv lv)) lv) c)) := by
  unfold closeSem at h
  simp only [Option.bind_eq_some] at h
  obtain ⟨R, hR, hG⟩ := h
  obtain ⟨cc, hop, hc⟩ := unop_get hG (relSem_cell hR hP hL)
  simp only [cellGreater, Option.some_inj] at hop
  rw [← hop] at hc
  exact hc

/-- When the batch is nonempty, an error metric evaluates to a finite
rational (the cast threshold tests are all 0 or 1, so their mean is a
quotient of finite values). -/
lemma errSem_fin {c : ℚ} {P L R : Mat} (hR : relSem P L = some R)
    (hn : R.flatten.length ≠ 0) :
    ∃ q : ℚ, errSem c P L = some [[.f (.fin q)]] := by
  rw [errSem_spec c hR]
  have hn0 : ((R.flatten.length : ℕ) : ℚ) ≠ 0 := Nat.cast_ne_zero.mpr hn
  refine ⟨((R.flatten.countP (hot c) : ℕ) : ℚ) / ((R.flatten.length : ℕ) : ℚ),
    ?_⟩
  simp only [fdiv, if_neg hn0]

/-- The bundle assembled for the sample topology `dense_nn 1 [1] 1 0`. -/
lemma sample_eq : dense_nn 1 [1] 1 0 = some sampleNN := by
  with_unfolding_all decide

/-- C1, counterexample: the claim says that with empty `layer_sizes` the
assembler still succeeds and wires the prediction head directly to the raw
input placeholder.  In the code `dense_nn` unconditionally evaluates
`layer_sizes[0]`, which raises IndexError on an empty list: at the concrete
topology (4 features, no hidden layers, 2 labels, seed 0) no bundle is
produced. -/
theorem C1_counterexample : dense_nn 4 [] 2 0 = none := rfl

/-- C1, amended: for every feature count, label count and seed, assembling
with an empty `layer_sizes` fails (the unconditional `layer_sizes[0]`
access raises IndexError before any layer is built) and returns no
bundle. -/
theorem C1_amended_empty_layers (nf nl : Nat) (seed : Int) :
    dense_nn nf [] nl seed = none := rfl

/-- C2: for every input handle with statically known nonzero second
dimension `d`, every unit count and every seed, `dense_relu` builds its
dense layer with a truncated-normal kernel initializer whose standard
deviation is `sqrt(2/d)` (He-style, not the framework default) and whose
randomness is parameterized by the given seed. -/
theorem C2_he_initialization (inputs : Tensor) (units : Nat) (seed : Int)
    (name : String) (d : Nat) (hd : inputs.dim2 = some d) (h0 : d ≠ 0) :
    dense_relu inputs units seed name =
      some (.relu (.affine inputs units ⟨.sqrt (2 / (d : ℚ)), seed⟩)) :=
  dense_relu_eq hd h0

/-- Witness for C2 at `dim_in = 10`: the initializer is the truncated
normal with standard deviation `sqrt(2/10) = sqrt(1/5)` and seed 42, and
`1/5` lies strictly between `0.4472^2` and `0.4473^2`, so the standard
deviation is approximately 0.4472 as the claim illustrates. -/
theorem C2_witness :
    (Tensor.placeholder "x" [none, some 10]).dim2 = some 10 ∧
    (10 : Nat) ≠ 0 ∧
    dense_relu (.placeholder "x" [none, some 10]) 7 42 "dense_relu" =
      some (.relu (.affine (.placeholder "x" [none, some 10]) 7
        ⟨.sqrt (2 / ((10 : Nat) : ℚ)), 42⟩)) ∧
    (2 / ((10 : Nat) : ℚ)) = 1/5 ∧
    (4472/10000 : ℚ)^2 < 1/5 ∧ (1/5 : ℚ) < (4473/10000)^2 :=
  ⟨rfl, by decide,
   C2_he_initialization (.placeholder "x" [none, some 10]) 7 42 "dense_relu"
     10 rfl (by decide),
   by with_unfolding_all decide, by with_unfolding_all decide,
   by with_unfolding_all decide⟩

/-- C3: for every input handle with statically known nonzero second
dimension, unit count, seed, training-mode handle and keep probability,
`dense_relu_bn_drop` produces exactly dropout over batch normalization
(centered and scaled, switched by the training flag) over the ReLU dense
layer: activation first, normalization strictly after the activation,
dropout strictly last, in this fixed order. -/
theorem C3_layer_order (inputs : Tensor) (units : Nat) (seed : Int)
    (training_phase pkeep : Tensor) (name : String) (d : Nat)
    (hd : inputs.dim2 = some d) (h0 : d ≠ 0) :
    dense_relu_bn_drop inputs units seed training_phase pkeep name =
      some (.dropout (.batchNorm
        (.relu (.affine inputs units ⟨.sqrt (2 / (d : ℚ)), seed⟩))
        true true training_phase) pkeep) :=
  dense_relu_bn_drop_eq hd h0

/-- Witness for C3 at a concrete 4-wide input, 3 units, seed 7. -/
theorem C3_witness :
    (Tensor.placeholder "x" [none, some 4]).dim2 = some 4 ∧
    (4 : Nat) ≠ 0 ∧
    dense_relu_bn_drop (.placeholder "x" [none, some 4]) 3 7
      (.placeholder "t" []) (.placeholder "p" []) "dense_relu_bn_drop" =
      some (.dropout (.batchNorm
        (.relu (.affine (.placeholder "x" [none, some 4]) 3
          ⟨.sqrt (2 / ((4 : Nat) : ℚ)), 7⟩))
        true true (.placeholder "t" [])) (.placeholder "p" [])) :=
  ⟨rfl, by decide,
   C3_layer_order (.placeholder "x" [none, some 4]) 3 7
     (.placeholder "t" []) (.placeholder "p" []) "dense_relu_bn_drop" 4 rfl
     (by decide)⟩

/-- C4: every assembled graph computes the relative error as
`|prediction - label| / label` elementwise and the two metrics as the mean
of the boolean-to-float cast of the elementwise threshold tests (at 0.02
and 0.01); feeding the 3-row batch whose relative errors are exactly
0.5%, 1.5% and 2.5% yields `err_1pc = 2/3` and `err_2pc = 1/3`. -/
theorem C4_error_metrics (nf : Nat) (ls : List Nat) (nl : Nat) (seed : Int)
    (nn : NeuralNetwork) (h : dense_nn nf ls nl seed = some nn) :
    nn.err_2pc = .reduceMean (.cast (.greater
      (.div (.abs (.sub nn.predictions nn.labels)) nn.labels) (2/100))) ∧
    nn.err_1pc = .reduceMean (.cast (.greater
      (.div (.abs (.sub nn.predictions nn.labels)) nn.labels) (1/100))) ∧
    nn.err_1pc.eval [(nn.predictions, predFeed3), (nn.labels, labelFeed3)]
      = some [[.f (.fin (2/3))]] ∧
    nn.err_2pc.eval [(nn.predictions, predFeed3), (nn.labels, labelFeed3)]
      = some [[.f (.fin (1/3))]] := by
  obtain ⟨-, hlab, -, -, ⟨last, d, hd, h0, hpred⟩, -, h2, h1, -⟩ :=
    dense_nn_spec h
  refine ⟨h2, h1, ?_, ?_⟩
  · rw [h1, hpred, hlab, eval_err_feed]
    with_unfolding_all decide
  · rw [h2, hpred, hlab, eval_err_feed]
    with_unfolding_all decide

/-- Witness for C4 on the sample topology: the 3-row batch with relative
errors 0.5%, 1.5%, 2.5% gives `err_1pc = 2/3`. -/
theorem C4_witness :
    dense_nn 1 [1] 1 0 = some sampleNN ∧
    sampleNN.err_1pc.eval
      [(sampleNN.predictions, predFeed3), (sampleNN.labels, labelFeed3)]
      = some [[.f (.fin (2/3))]] :=
  ⟨sample_eq, (C4_error_metrics 1 [1] 1 0 sampleNN sample_eq).2.2.1⟩

/-- Shared core for C5: on any assembled network and any fed batch on which
both metrics evaluate, the 2%-threshold error rate never strictly exceeds
the 1%-threshold error rate. -/
lemma dense_nn_err_no_gt {nf : Nat} {ls : List Nat} {nl : Nat} {seed : Int}
    {nn : NeuralNetwork} {P L M2 M1 : Mat}
    (h : dense_nn nf ls nl seed = some nn)
    (h2 : nn.err_2pc.eval [(nn.predictions, P), (nn.labels, L)] = some M2)
    (h1 : nn.err_1pc.eval [(nn.predictions, P), (nn.labels, L)] = some M1) :
    metricGt M2 M1 = false := by
  obtain ⟨-, hlab, -, -, ⟨last, d, hd, h0, hpred⟩, -, he2, he1, -⟩ :=
    dense_nn_spec h
  rw [he2, hpred, hlab, eval_err_feed] at h2
  rw [he1, hpred, hlab, eval_err_feed] at h1
  exact err_metrics_no_gt h2 h1

/-- C5, counterexample to the claim: the claim asserts that for some
assembled network and some fed predictions/labels batch the fraction of
elements exceeding the 2% threshold strictly exceeds the fraction
exceeding the 1% threshold.  No such batch exists: exceeding 0.02 implies
exceeding 0.01 elementwise (also through IEEE infinities and NaN), so the
2% rate is never strictly larger. -/
theorem C5_counterexample :
    ¬ ∃ (nf : Nat) (ls : List Nat) (nl : Nat) (seed : Int)
        (nn : NeuralNetwork) (P L M2 M1 : Mat),
      dense_nn nf ls nl seed = some nn ∧
      nn.err_2pc.eval [(nn.predictions, P), (nn.labels, L)] = some M2 ∧
      nn.err_1pc.eval [(nn.predictions, P), (nn.labels, L)] = some M1 ∧
      metricGt M2 M1 = true := by
  rintro ⟨nf, ls, nl, seed, nn, P, L, M2, M1, h, h2, h1, hgt⟩
  rw [dense_nn_err_no_gt h h2 h1] at hgt
  exact Bool.noConfusion hgt

/-- C5, amended: the inequality `err_2pc ≤ err_1pc` IS guaranteed: for
every assembled network and every fed predictions/labels batch on which
both metrics evaluate, the evaluated 2%-threshold error rate never
strictly exceeds the evaluated 1%-threshold error rate. -/
theorem C5_amended_monotone (nf : Nat) (ls : List Nat) (nl : Nat)
    (seed : Int) (nn : NeuralNetwork) (P L M2 M1 : Mat)
    (h : dense_nn nf ls nl seed = some nn)
    (h2 : nn.err_2pc.eval [(nn.predictions, P), (nn.labels, L)] = some M2)
    (h1 : nn.err_1pc.eval [(nn.predictions, P), (nn.labels, L)] = some M1) :
    metricGt M2 M1 = false :=
  dense_nn_err_no_gt h h2 h1

/-- Witness for C5 on the sample topology and the 3-row batch:
`err_2pc = 1/3`, `err_1pc = 2/3`, and the former does not strictly exceed
the latter. -/
theorem C5_witness :
    dense_nn 1 [1] 1 0 = some sampleNN ∧
    sampleNN.err_2pc.eval
      [(sampleNN.predictions, predFeed3), (sampleNN.labels, labelFeed3)]
      = some [[.f (.fin (1/3))]] ∧
    sampleNN.err_1pc.eval
      [(sampleNN.predictions, predFeed3), (sampleNN.labels, labelFeed3)]
      = some [[.f (.fin (2/3))]] ∧
    metricGt [[.f (.fin (1/3))]] [[.f (.fin (2/3))]] = false :=
  ⟨sample_eq, by with_unfolding_all decide, by with_unfolding_all decide,
   C5_amended_monotone 1 [1] 1 0 sampleNN predFeed3 labelFeed3
     [[.f (.fin (1/3))]] [[.f (.fin (2/3))]] sample_eq
     (by with_unfolding_all decide) (by with_unfolding_all decide)⟩

/-- C6: two invocations of the assembler with identical feature count,
layer sizes, label count and seed produce identical bundles, and in
particular identical kernel-initializer descriptors in every layer of the
prediction graph — the weights the external framework draws from these
descriptors are therefore numerically identical (assembly is a pure
function of the topology). -/
theorem C6_deterministic_assembly (nf : Nat) (ls : List Nat) (nl : Nat)
    (seed : Int) (nn1 nn2 : NeuralNetwork)
    (h1 : dense_nn nf ls nl seed = some nn1)
    (h2 : dense_nn nf ls nl seed = some nn2) :
    nn1 = nn2 ∧
    nn1.predictions.collectInits = nn2.predictions.collectInits := by
  rw [h1] at h2
  obtain rfl := Option.some_inj.mp h2
  exact ⟨rfl, rfl⟩

/-- Witness for C6 on the sample topology. -/
theorem C6_witness :
    dense_nn 1 [1] 1 0 = some sampleNN ∧
    (sampleNN = sampleNN ∧
      sampleNN.predictions.collectInits =
        sampleNN.predictions.collectInits) :=
  ⟨sample_eq,
   C6_deterministic_assembly 1 [1] 1 0 sampleNN sampleNN sample_eq sample_eq⟩

/-- C7, counterexample to the claim: feeding a zero label does put a
division-by-zero artifact (here +infinity) into `relative_error`, but the
claim's assertion that the artifact then appears in `err_2pc` and
`err_1pc` is false: both metrics evaluate to the finite value 1 (the
infinite relative error passes both `greater` tests, is cast to 1.0 and
averaged), with no NaN or infinity in either metric. -/
theorem C7_counterexample :
    dense_nn 1 [1] 1 0 = some sampleNN ∧
    (relative_error_of sampleNN.predictions sampleNN.labels).eval
      [(sampleNN.predictions, [[.f (.fin 3)]]),
       (sampleNN.labels, [[.f (.fin 0)]])] = some [[.f .inf]] ∧
    hasArtifact [[Cell.f .inf]] = true ∧
    sampleNN.err_2pc.eval
      [(sampleNN.predictions, [[.f (.fin 3)]]),
       (sampleNN.labels, [[.f (.fin 0)]])] = some [[.f (.fin 1)]] ∧
    sampleNN.err_1pc.eval
      [(sampleNN.predictions, [[.f (.fin 3)]]),
       (sampleNN.labels, [[.f (.fin 0)]])] = some [[.f (.fin 1)]] ∧
    hasArtifact [[Cell.f (.fin 1)]] = false :=
  ⟨sample_eq, by with_unfolding_all decide, by decide,
   by with_unfolding_all decide, by with_unfolding_all decide, by decide⟩

/-- C7, amended: the relative-error computation divides by the raw label
with no guard: whenever some fed label element is exactly zero, the
division produces a division-by-zero artifact (NaN or +infinity) at that
position of `relative_error`, and the assembler neither validates against
nor recovers from this (no crash); `err_2pc` and `err_1pc`, however,
still evaluate to finite rationals — the artifact element is absorbed by
the IEEE comparisons (infinity exceeds both thresholds, NaN exceeds
neither) instead of propagating NaN/Inf into the metrics. -/
theorem C7_amended_zero_label (nf : Nat) (ls : List Nat) (nl : Nat)
    (seed : Int) (nn : NeuralNetwork) (P L R M2 M1 : Mat) (i j : ℕ)
    (h : dense_nn nf ls nl seed = some nn)
    (hL : getCell L i j = some (.f (.fin 0)))
    (hR : (relative_error_of nn.predictions nn.labels).eval
      [(nn.predictions, P), (nn.labels, L)] = some R)
    (h2 : nn.err_2pc.eval [(nn.predictions, P), (nn.labels, L)] = some M2)
    (h1 : nn.err_1pc.eval [(nn.predictions, P), (nn.labels, L)] = some M1) :
    (∃ r, getCell R i j = some (.f r) ∧ (r = .inf ∨ r = .nan)) ∧
    (∃ q2 : ℚ, M2 = [[.f (.fin q2)]]) ∧
    (∃ q1 : ℚ, M1 = [[.f (.fin q1)]]) := by
  obtain ⟨-, hlab, -, -, ⟨last, d, hd, h0, hpred⟩, -, he2, he1, -⟩ :=
    dense_nn_spec h
  rw [hpred, hlab, eval_rel_feed] at hR
  rw [he2, hpred, hlab, eval_err_feed] at h2
  rw [he1, hpred, hlab, eval_err_feed] at h1
  obtain ⟨pv, hP⟩ := relSem_pred_cell hR hL
  have hcell := relSem_cell hR hP hL
  have hmem := getCell_mem hcell
  have hnonnil : R.flatten.length ≠ 0 := fun h0len =>
    List.ne_nil_of_mem hmem (List.length_eq_zero.mp h0len)
  refine ⟨⟨fdiv (fabs (fsub pv (.fin 0))) (.fin 0), hcell,
    rel_zero_artifact pv⟩, ?_, ?_⟩
  · obtain ⟨q2, hq2⟩ := @errSem_fin (2/100) P L R hR hnonnil
    rw [hq2] at h2
    exact ⟨q2, (Option.some_inj.mp h2).symm⟩
  · obtain ⟨q1, hq1⟩ := @errSem_fin (1/100) P L R hR hnonnil
    rw [hq1] at h1
    exact ⟨q1, (Option.some_inj.mp h1).symm⟩

/-- Witness for C7 (amended) on the sample topology with prediction 3 fed
against label 0: the relative error is +infinity while both metrics are
the finite value 1. -/
theorem C7_witness :
    dense_nn 1 [1] 1 0 = some sampleNN ∧
    getCell [[Cell.f (.fin 0)]] 0 0 = some (.f (.fin 0)) ∧
    ((∃ r, getCell [[Cell.f .inf]] 0 0 = some (.f r) ∧
        (r = .inf ∨ r = .nan)) ∧
      (∃ q2 : ℚ, [[Cell.f (.fin 1)]] = [[Cell.f (.fin q2)]]) ∧
      (∃ q1 : ℚ, [[Cell.f (.fin 1)]] = [[Cell.f (.fin q1)]])) :=
  ⟨sample_eq, rfl,
   C7_amended_zero_label 1 [1] 1 0 sampleNN [[.f (.fin 3)]]
     [[.f (.fin 0)]] [[.f .inf]] [[.f (.fin 1)]] [[.f (.fin 1)]] 0 0
     sample_eq rfl (by with_unfolding_all decide)
     (by with_unfolding_all decide) (by with_unfolding_all decide)⟩

/-- C8: the prediction head is built with `dense_relu`, so its ReLU
activation makes every evaluated element of the predictions output
not strictly negative, for every feed under which the prediction node is
actually computed (rather than overridden by the feed): the network can
never predict a strictly negative value. -/
theorem C8_predictions_nonnegative (nf : Nat) (ls : List Nat) (nl : Nat)
    (seed : Int) (nn : NeuralNetwork) (feed : List (Tensor × Mat)) (M : Mat)
    (h : dense_nn nf ls nl seed = some nn)
    (hnf : lookupFeed feed nn.predictions = none)
    (he : nn.predictions.eval feed = some M) :
    ∀ cell ∈ M.flatten, cell.strictNeg = false := by
  obtain ⟨-, -, -, -, ⟨last, d, hd, h0, hpred⟩, -, -, -, -⟩ :=
    dense_nn_spec h
  rw [hpred] at hnf he
  simp only [Tensor.eval, hnf] at he
  obtain ⟨MU, hMU, hun⟩ := Option.bind_eq_some.mp he
  intro cell hc
  obtain ⟨a, ha⟩ := unop_out hun cell hc
  cases a with
  | b x => simp [cellRelu] at ha
  | f v =>
    simp only [cellRelu, Option.some_inj] at ha
    rw [← ha]
    cases v with
    | fin q =>
      simp only [frelu, Cell.strictNeg, decide_eq_false_iff_not, not_lt]
      exact le_max_right q 0
    | inf => simp [Cell.strictNeg, frelu]
    | ninf => simp [Cell.strictNeg, frelu]
    | nan => simp [Cell.strictNeg, frelu]

/-- Witness for C8 on the sample topology: feeding the affine part of the
prediction head the value -5 evaluates the prediction node to 0, which is
not strictly negative. -/
theorem C8_witness :
    dense_nn 1 [1] 1 0 = some sampleNN ∧
    lookupFeed [(sampleHead, [[Cell.f (.fin (-5))]])] sampleNN.predictions
      = none ∧
    sampleNN.predictions.eval [(sampleHead, [[Cell.f (.fin (-5))]])]
      = some [[.f (.fin 0)]] ∧
    Cell.strictNeg (.f (.fin 0)) = false :=
  ⟨sample_eq, by with_unfolding_all decide, by with_unfolding_all decide,
   C8_predictions_nonnegative 1 [1] 1 0 sampleNN
     [(sampleHead, [[Cell.f (.fin (-5))]])] [[.f (.fin 0)]] sample_eq
     (by with_unfolding_all decide) (by with_unfolding_all decide)
     (.f (.fin 0)) (by simp)⟩

/-- C9: at any batch position whose fed label is strictly negative, the
relative error `|p - l| / l` is a nonpositive rational (the denominator is
the signed label, not its absolute value), so both threshold tests
(> 0.02 and > 0.01) evaluate to false and the element counts as accurate
in both metrics regardless of how far the prediction is from the label. -/
theorem C9_negative_label_accurate (nf : Nat) (ls : List Nat) (nl : Nat)
    (seed : Int) (nn : NeuralNetwork) (P L G2 G1 : Mat) (i j : ℕ) (p q : ℚ)
    (h : dense_nn nf ls nl seed = some nn)
    (hP : getCell P i j = some (.f (.fin p)))
    (hL : getCell L i j = some (.f (.fin q)))
    (hq : q < 0)
    (hG2 : (close_prediction_of nn.predictions nn.labels (2/100)).eval
      [(nn.predictions, P), (nn.labels, L)] = some G2)
    (hG1 : (close_prediction_of nn.predictions nn.labels (1/100)).eval
      [(nn.predictions, P), (nn.labels, L)] = some G1) :
    getCell G2 i j = some (.b false) ∧ getCell G1 i j = some (.b false) := by
  obtain ⟨-, hlab, -, -, ⟨last, d, hd, h0, hpred⟩, -, -, -, -⟩ :=
    dense_nn_spec h
  rw [hpred, hlab, eval_close_feed] at hG2 hG1
  have e2 := closeSem_cell hG2 hP hL
  have e1 := closeSem_cell hG1 hP hL
  rw [rel_neg_label_not_hot hq (by norm_num)] at e2
  rw [rel_neg_label_not_hot hq (by norm_num)] at e1
  exact ⟨e2, e1⟩

/-- Witness for C9 on the sample topology: prediction 5 against label -1
(relative error -6, far off) still fails both threshold tests. -/
theorem C9_witness :
    dense_nn 1 [1] 1 0 = some sampleNN ∧
    getCell [[Cell.f (.fin 5)]] 0 0 = some (.f (.fin 5)) ∧
    getCell [[Cell.f (.fin (-1))]] 0 0 = some (.f (.fin (-1))) ∧
    ((-1 : ℚ) < 0) ∧
    (getCell [[Cell.b false]] 0 0 = some (.b false) ∧
      getCell [[Cell.b false]] 0 0 = some (.b false)) :=
  ⟨sample_eq, rfl, rfl, by decide,
   C9_negative_label_accurate 1 [1] 1 0 sampleNN [[.f (.fin 5)]]
     [[.f (.fin (-1))]] [[.b false]] [[.b false]] 0 0 5 (-1) sample_eq rfl
     rfl (by decide) (by with_unfolding_all decide)
     (by with_unfolding_all decide)⟩

/-- C10: the assembler passes the topology's single seed unchanged to
every layer it builds: every kernel initializer occurring in the
prediction graph (all hidden `dense_relu_bn_drop` layers and the
`dense_relu` prediction head) carries exactly that seed; no per-layer
seed derivation occurs. -/
theorem C10_seed_propagation (nf : Nat) (ls : List Nat) (nl : Nat)
    (seed : Int) (nn : NeuralNetwork)
    (h : dense_nn nf ls nl seed = some nn) :
    ∀ i ∈ nn.predictions.collectInits, i.seed = seed :=
  (dense_nn_spec h).2.2.2.2.2.2.2.2

/-- Witness for C10 on the sample topology: the prediction head's
initializer occurs in the prediction graph and carries seed 0. -/
theorem C10_witness :
    dense_nn 1 [1] 1 0 = some sampleNN ∧
    (⟨.sqrt 2, 0⟩ : TruncatedNormal) ∈
      sampleNN.predictions.collectInits ∧
    (⟨.sqrt 2, 0⟩ : TruncatedNormal).seed = 0 :=
  ⟨sample_eq, by with_unfolding_all decide,
   C10_seed_propagation 1 [1] 1 0 sampleNN sample_eq ⟨.sqrt 2, 0⟩
     (by with_unfolding_all decide)⟩
